import Mathlib

/-!
Verification of the options-calculator engine.

The strategy-analytics functions (`calculatePLAtExpiration`,
`calculateBreakevens`, `calculateMaxProfitLoss`) perform only field
arithmetic, `min`/`max` and comparisons, so they are embedded over `ℚ`
(the exact-arithmetic reading of the JavaScript number type) and stay
computable.  The Black-Scholes kernel (`normalCDF`, `callPrice`,
`putPrice`, `vega`, `impliedVolatility`) uses `exp`, `log` and `sqrt`
and is embedded over `ℝ`.

JavaScript loops are embedded as fuel-bounded recursions; every loop in
the source is bounded (the scans stop at a finite `endPrice`, bisection
halves a width of 0.25 down to 0.01, the solver runs at most
`maxIterations` times), and the fuel constants are chosen large enough
that the guard, not the fuel, terminates the recursion on every input a
theorem below touches.
-/

namespace OptionsCalc

/-- `leg.type` field of an option leg: the JS strings `long` / `short`. -/
inductive PositionKind where
  | long : PositionKind
  | short : PositionKind
deriving DecidableEq, Repr

/-- `leg.optionType` field: the JS strings `call` / `put`. -/
inductive OptionKind where
  | call : OptionKind
  | put : OptionKind
deriving DecidableEq, Repr

/-- One option leg, as pushed by `OptionsStrategy.addLeg`.
`expiration` is the expiry instant in epoch milliseconds. -/
structure Leg where
  type : PositionKind
  strike : ℚ
  premium : ℚ
  quantity : ℤ
  optionType : OptionKind
  expiration : ℚ
deriving DecidableEq, Repr

/-- `Math.max` on two exact numbers.  Written with `if` rather than the
lattice `⊔` so that the kernel can evaluate it on literals. -/
def jsMax (a b : ℚ) : ℚ := if a ≤ b then b else a

/-- `Math.min` on two exact numbers. -/
def jsMin (a b : ℚ) : ℚ := if a ≤ b then a else b

/-- `Math.abs`. -/
def jsAbs (a : ℚ) : ℚ := if a < 0 then -a else a

/-- Intrinsic value of one leg at a stock price
(`Math.max(0, stockPrice - leg.strike)` for a call, mirrored for a put). -/
def legIntrinsic (leg : Leg) (stockPrice : ℚ) : ℚ :=
  match leg.optionType with
  | .call => jsMax 0 (stockPrice - leg.strike)
  | .put => jsMax 0 (leg.strike - stockPrice)

/-- P&L of one leg at expiration: `(intrinsic - premium) * quantity * 100`
for a long leg, `(premium - intrinsic) * quantity * 100` for a short leg. -/
def legPL (leg : Leg) (stockPrice : ℚ) : ℚ :=
  match leg.type with
  | .long => (legIntrinsic leg stockPrice - leg.premium) * (leg.quantity : ℚ) * 100
  | .short => (leg.premium - legIntrinsic leg stockPrice) * (leg.quantity : ℚ) * 100

/-- `OptionsStrategy.calculatePLAtExpiration`: sum of the per-leg P&L. -/
def calculatePLAtExpiration (legs : List Leg) (stockPrice : ℚ) : ℚ :=
  legs.foldl (fun acc leg => acc + legPL leg stockPrice) 0

/-- The bisection refinement inside `calculateBreakevens`.  Runs while
`high - low > 0.01`; pushes (returns) the midpoint only when the midpoint
P&L is within 0.01 of zero, otherwise narrows the bracket, threading the
mutable `lastPL` exactly as the JS code does.  The fuel bounds the loop;
each pass halves `high - low`, so 64 is far more than the 5 passes a
0.25-wide bracket allows. -/
def bisect (legs : List Leg) : ℚ → ℚ → ℚ → ℕ → Option ℚ
  | _, _, _, 0 => none
  | low, high, lastPL, fuel + 1 =>
    if high - low > 1 / 100 then
      let mid := (low + high) / 2
      let midPL := calculatePLAtExpiration legs mid
      if jsAbs midPL < 1 / 100 then some mid
      else if (lastPL ≤ 0 ∧ midPL ≥ 0) ∨ (lastPL ≥ 0 ∧ midPL ≤ 0) then
        bisect legs low mid lastPL fuel
      else
        bisect legs mid high midPL fuel
    else none

/-- The coarse scan of `calculateBreakevens`: step 0.25, crossing test
`(lastPL <= 0 && currentPL >= 0) || (lastPL >= 0 && currentPL <= 0)`,
with `lastPL = null` (here `none`) before the first sample. -/
def scanBE (legs : List Leg) (endPrice : ℚ) : ℚ → Option ℚ → List ℚ → ℕ → List ℚ
  | _, _, acc, 0 => acc
  | price, lastPL?, acc, fuel + 1 =>
    if price ≤ endPrice then
      let currentPL := calculatePLAtExpiration legs price
      let acc' :=
        match lastPL? with
        | none => acc
        | some lastPL =>
          if (lastPL ≤ 0 ∧ currentPL ≥ 0) ∨ (lastPL ≥ 0 ∧ currentPL ≤ 0) then
            match bisect legs (price - 1 / 4) price lastPL 64 with
            | some be => acc ++ [be]
            | none => acc
          else acc
      scanBE legs endPrice (price + 1 / 4) (some currentPL) acc' fuel
    else acc

/-- `Math.round(be * 100) / 100`: JS rounds half toward positive infinity. -/
def jsRound2 (q : ℚ) : ℚ := ((⌊q * 100 + 1 / 2⌋ : ℤ) : ℚ) / 100

/-- `[...new Set(l)]`: deduplication keeping the first occurrence order. -/
def jsSetDedup (l : List ℚ) : List ℚ :=
  l.foldl (fun acc x => if x ∈ acc then acc else acc ++ [x]) []

/-- `OptionsStrategy.calculateBreakevens`.  With zero legs the JS
`Math.min(...)` / `Math.max(...)` of no arguments are `+Infinity` /
`-Infinity`, so the scan runs from `+Infinity` with upper bound
`-Infinity`, i.e. zero iterations, and the function returns `[]`;
that case is the first match arm. -/
def calculateBreakevens (legs : List Leg) : List ℚ :=
  match legs.map Leg.strike with
  | [] => []
  | s :: ss =>
    let minStrike := ss.foldl jsMin s
    let maxStrike := ss.foldl jsMax s
    let priceRange := jsMax (maxStrike - minStrike) 50
    let startPrice := minStrike - priceRange * (1 / 2)
    let endPrice := maxStrike + priceRange * (1 / 2)
    jsSetDedup ((scanBE legs endPrice startPrice none [] 1000000).map jsRound2)

/-- Result record of `calculateMaxProfitLoss`; `none` is the JS `null`. -/
structure MaxPL where
  maxProfit : Option ℚ
  maxLoss : Option ℚ
deriving DecidableEq, Repr

/-- `Math.max` folded into an accumulator that starts at `-Infinity`
(represented by `none`, which is also what the JS null-translation at the
end of `calculateMaxProfitLoss` maps `-Infinity` to). -/
def jsMaxAcc (acc : Option ℚ) (v : ℚ) : Option ℚ :=
  some (match acc with
    | none => v
    | some a => jsMax a v)

/-- `Math.min` folded into an accumulator that starts at `+Infinity`. -/
def jsMinAcc (acc : Option ℚ) (v : ℚ) : Option ℚ :=
  some (match acc with
    | none => v
    | some a => jsMin a v)

/-- The 0.5-step sampling loop of `calculateMaxProfitLoss`. -/
def scanMPL (legs : List Leg) (endPrice : ℚ) :
    ℚ → Option ℚ → Option ℚ → ℕ → Option ℚ × Option ℚ
  | _, accMax, accMin, 0 => (accMax, accMin)
  | price, accMax, accMin, fuel + 1 =>
    if price ≤ endPrice then
      let pl := calculatePLAtExpiration legs price
      scanMPL legs endPrice (price + 1 / 2) (jsMaxAcc accMax pl) (jsMinAcc accMin pl) fuel
    else (accMax, accMin)

/-- `OptionsStrategy.calculateMaxProfitLoss`.  With zero legs the strike
bounds are `±Infinity`, the sampling loop runs zero iterations and
`endPrice * 2 = -Infinity`; the P&L of an empty strategy is 0 at every
price (the price argument is never inspected), so the two extreme samples
are 0 and they replace the `±Infinity` accumulators — the first match arm
spells that case out, passing a dummy price 0 for the `-Infinity` one.
The JS translation `maxProfit === -Infinity ? null : maxProfit` is the
identity on the `Option` accumulators: `none` is `-Infinity` and `null`
at once. -/
def calculateMaxProfitLoss (legs : List Leg) : MaxPL :=
  match legs.map Leg.strike with
  | [] =>
    let extremeLow := calculatePLAtExpiration legs (1 / 100)
    let extremeHigh := calculatePLAtExpiration legs 0
    { maxProfit := jsMaxAcc (jsMaxAcc none extremeLow) extremeHigh
      maxLoss := jsMinAcc (jsMinAcc none extremeLow) extremeHigh }
  | s :: ss =>
    let minStrike := ss.foldl jsMin s
    let maxStrike := ss.foldl jsMax s
    let priceRange := jsMax (maxStrike - minStrike) 100
    let startPrice := jsMax (1 / 100) (minStrike - priceRange)
    let endPrice := maxStrike + priceRange
    let scanned := scanMPL legs endPrice startPrice none none 1000000
    let extremeLow := calculatePLAtExpiration legs (1 / 100)
    let extremeHigh := calculatePLAtExpiration legs (endPrice * 2)
    { maxProfit := jsMaxAcc (jsMaxAcc scanned.1 extremeLow) extremeHigh
      maxLoss := jsMinAcc (jsMinAcc scanned.2 extremeLow) extremeHigh }

/-! ## The Black-Scholes kernel, over `ℝ` -/

noncomputable section

open Real

/-- `BlackScholesCalculator.normalCDF`: the Abramowitz-Stegun 7.1.26
rational-polynomial approximation of the standard normal CDF, exactly as
in the source (the reassignment `x = Math.abs(x) / Math.sqrt(2.0)` is the
local `x'`). -/
def normalCDF (x : ℝ) : ℝ :=
  let a1 : ℝ := 0.254829592
  let a2 : ℝ := -0.284496736
  let a3 : ℝ := 1.421413741
  let a4 : ℝ := -1.453152027
  let a5 : ℝ := 1.061405429
  let p : ℝ := 0.3275911
  let sign : ℝ := if x < 0 then -1 else 1
  let x' := |x| / Real.sqrt 2
  let t := 1 / (1 + p * x')
  let y := 1 - ((((a5 * t + a4) * t + a3) * t + a2) * t + a1) * t * Real.exp (-x' * x')
  0.5 * (1 + sign * y)

/-- The quintic `(((((a5*t + a4)*t) + a3)*t + a2)*t + a1)*t` of the
Abramowitz-Stegun polynomial, named for the analysis below. -/
def P5 (t : ℝ) : ℝ :=
  ((((1.061405429 * t + -1.453152027) * t + 1.421413741) * t + -0.284496736) * t
    + 0.254829592) * t

/-- The substitution `t = 1/(1 + p*x')` of the approximation. -/
def tAS (u : ℝ) : ℝ := 1 / (1 + 0.3275911 * u)

/-- `normalCDF x * exp (x^2/2)`: the normalCDF with its Gaussian tail
factored out.  Strict monotonicity of this function (proved below) is
what makes the Black-Scholes difference `S·N(d1) − K·e^{−rT}·N(d2)`
positive. -/
def gaussTailRatio (x : ℝ) : ℝ := normalCDF x * Real.exp (x ^ 2 / 2)

/-- `BlackScholesCalculator.normalPDF`. -/
def normalPDF (x : ℝ) : ℝ := Real.exp (-0.5 * x * x) / Real.sqrt (2 * Real.pi)

/-- `BlackScholesCalculator.calculateD1`. -/
def calculateD1 (S K T r sigma : ℝ) : ℝ :=
  (Real.log (S / K) + (r + 0.5 * sigma * sigma) * T) / (sigma * Real.sqrt T)

/-- `BlackScholesCalculator.calculateD2`. -/
def calculateD2 (d1 sigma T : ℝ) : ℝ := d1 - sigma * Real.sqrt T

/-- `BlackScholesCalculator.callPrice`. -/
def callPrice (S K T r sigma : ℝ) : ℝ :=
  if T ≤ 0 then max (S - K) 0
  else
    let d1 := calculateD1 S K T r sigma
    let d2 := calculateD2 d1 sigma T
    S * normalCDF d1 - K * Real.exp (-r * T) * normalCDF d2

/-- `BlackScholesCalculator.putPrice`. -/
def putPrice (S K T r sigma : ℝ) : ℝ :=
  if T ≤ 0 then max (K - S) 0
  else
    let d1 := calculateD1 S K T r sigma
    let d2 := calculateD2 d1 sigma T
    K * Real.exp (-r * T) * normalCDF (-d2) - S * normalCDF (-d1)

/-- The description of `callPrice` given by the specification: intrinsic
value at `T ≤ 0`, otherwise the closed-form Black-Scholes value floored
at 0.  (Definition written from the words of the specification, for the
refinement comparison of claim C5.) -/
def specCallPrice (S K T r sigma : ℝ) : ℝ :=
  if T ≤ 0 then max (S - K) 0
  else
    let d1 := calculateD1 S K T r sigma
    let d2 := calculateD2 d1 sigma T
    max (S * normalCDF d1 - K * Real.exp (-r * T) * normalCDF d2) 0

/-- The description of `putPrice` given by the specification, floored
at 0 (written from the words of the specification, for claim C5). -/
def specPutPrice (S K T r sigma : ℝ) : ℝ :=
  if T ≤ 0 then max (K - S) 0
  else
    let d1 := calculateD1 S K T r sigma
    let d2 := calculateD2 d1 sigma T
    max (K * Real.exp (-r * T) * normalCDF (-d2) - S * normalCDF (-d1)) 0

/-- `BlackScholesCalculator.vega` (per 1% volatility change). -/
def vega (S K T r sigma : ℝ) : ℝ :=
  if T ≤ 0 then 0
  else S * normalPDF (calculateD1 S K T r sigma) * Real.sqrt T / 100

/-- The body of the Newton-Raphson loop of
`BlackScholesCalculator.impliedVolatility`, as a recursion on the
remaining iteration count.  Each pass: model price, tolerance check,
early break on zero vega, Newton update clamped to `[0.01, 5.0]`. -/
def ivLoop (marketPrice S K T r : ℝ) (optionType : OptionKind) (tolerance : ℝ) :
    ℝ → ℕ → ℝ
  | sigma, 0 => sigma
  | sigma, fuel + 1 =>
    let price :=
      match optionType with
      | .call => callPrice S K T r sigma
      | .put => putPrice S K T r sigma
    let diff := price - marketPrice
    if |diff| < tolerance then sigma
    else
      let v := vega S K T r sigma * 100
      if v = 0 then sigma
      else ivLoop marketPrice S K T r optionType tolerance
        (max 0.01 (min 5.0 (sigma - diff / v))) fuel

/-- `BlackScholesCalculator.impliedVolatility`: Newton-Raphson from the
initial guess `σ = 0.3`, with the source defaults
`tolerance = 0.0001`, `maxIterations = 100`. -/
def impliedVolatility (marketPrice S K T r : ℝ) (optionType : OptionKind)
    (tolerance : ℝ := 0.0001) (maxIterations : ℕ := 100) : ℝ :=
  ivLoop marketPrice S K T r optionType tolerance 0.3 maxIterations

/-- The same recursion as `ivLoop`, additionally recording whether the
run returned through the tolerance test (`true` = converged) or through
iteration exhaustion / the zero-vega break (`false`).  The source
function returns only the number; this instrumented version makes the
control flow of the source loop a provable object. -/
def ivResultLoop (marketPrice S K T r : ℝ) (optionType : OptionKind) (tolerance : ℝ) :
    ℝ → ℕ → ℝ × Bool
  | sigma, 0 => (sigma, false)
  | sigma, fuel + 1 =>
    let price :=
      match optionType with
      | .call => callPrice S K T r sigma
      | .put => putPrice S K T r sigma
    let diff := price - marketPrice
    if |diff| < tolerance then (sigma, true)
    else
      let v := vega S K T r sigma * 100
      if v = 0 then (sigma, false)
      else ivResultLoop marketPrice S K T r optionType tolerance
        (max 0.01 (min 5.0 (sigma - diff / v))) fuel

/-- `impliedVolatility` with the convergence flag attached. -/
def ivResult (marketPrice S K T r : ℝ) (optionType : OptionKind)
    (tolerance : ℝ := 0.0001) (maxIterations : ℕ := 100) : ℝ × Bool :=
  ivResultLoop marketPrice S K T r optionType tolerance 0.3 maxIterations

/-- `BlackScholesCalculator.timeToExpiration`, parameterised by the
current instant `now` (the JS `new Date()`), both in epoch milliseconds:
millisecond difference over `1000*60*60*24` days, over 365, floored
at 0. -/
def timeToExpiration (now expiration : ℝ) : ℝ :=
  max 0 (((expiration - now) / (1000 * 60 * 60 * 24)) / 365)

/-- The theoretical price of one leg inside
`OptionsStrategy.calculateCurrentPL`, at that leg's own time to expiry. -/
def legCurrentPrice (leg : Leg) (stockPrice now riskFreeRate impliedVol : ℝ) : ℝ :=
  let T := timeToExpiration now (leg.expiration : ℝ)
  match leg.optionType with
  | .call => callPrice stockPrice (leg.strike : ℝ) T riskFreeRate impliedVol
  | .put => putPrice stockPrice (leg.strike : ℝ) T riskFreeRate impliedVol

/-- `OptionsStrategy.calculateCurrentPL` with the source defaults
`riskFreeRate = 0.05`, `impliedVol = 0.25`. -/
def calculateCurrentPL (legs : List Leg) (stockPrice now : ℝ)
    (riskFreeRate : ℝ := 0.05) (impliedVol : ℝ := 0.25) : ℝ :=
  legs.foldl
    (fun acc leg =>
      acc +
        match leg.type with
        | .long =>
          (legCurrentPrice leg stockPrice now riskFreeRate impliedVol - (leg.premium : ℝ))
            * (leg.quantity : ℝ) * 100
        | .short =>
          ((leg.premium : ℝ) - legCurrentPrice leg stockPrice now riskFreeRate impliedVol)
            * (leg.quantity : ℝ) * 100)
    0

/-- The sampling loop of `generatePLCurve`: `for (price = startPrice;
price <= endPrice; price += step)`, pushing a `(price, P&L)` pair to the
expiration series and one to the current-valuation series on every pass.
The grid prices are exact rationals; only the current-valuation P&L
needs `ℝ`. -/
def curveLoop (legs : List Leg) (now : ℝ) (endPrice step : ℚ) :
    ℚ → ℕ → List (ℚ × ℚ) × List (ℚ × ℝ)
  | _, 0 => ([], [])
  | price, fuel + 1 =>
    if price ≤ endPrice then
      let rest := curveLoop legs now endPrice step (price + step) fuel
      ((price, calculatePLAtExpiration legs price) :: rest.1,
        (price, calculateCurrentPL legs (price : ℝ) now) :: rest.2)
    else ([], [])

/-- `generatePLCurve(strategy, priceRange, currentStockPrice)` from the
API layer.  `priceRange || currentStockPrice * 0.5` is modelled with an
`Option`: an absent (`undefined`) or zero (falsy) `priceRange` falls back
to `0.5 * S`.  `step = (endPrice - startPrice) / 100`.  The fuel 1000 is
far above the at most 101 passes the guard allows when `step > 0`. -/
def generatePLCurve (legs : List Leg) (priceRange : Option ℚ)
    (currentStockPrice : ℚ) (now : ℝ) : List (ℚ × ℚ) × List (ℚ × ℝ) :=
  let range :=
    match priceRange with
    | none => currentStockPrice * (1 / 2)
    | some q => if q = 0 then currentStockPrice * (1 / 2) else q
  let startPrice := jsMax (1 / 100) (currentStockPrice - range)
  let endPrice := currentStockPrice + range
  let step := (endPrice - startPrice) / 100
  curveLoop legs now endPrice step startPrice 1000

end

/-! ## Helper lemmas -/

theorem jsMax_eq_max (a b : ℚ) : jsMax a b = max a b := (max_def a b).symm

theorem jsMin_eq_min (a b : ℚ) : jsMin a b = min a b := (min_def a b).symm

theorem jsAbs_eq_abs (a : ℚ) : jsAbs a = |a| := by
  rcases lt_trichotomy a 0 with h | h | h
  · simp [jsAbs, h, abs_of_neg h]
  · simp [jsAbs, h]
  · simp [jsAbs, not_lt.2 h.le, abs_of_pos h]

/-! Step and stop lemmas for the fuel-bounded loops.  Concrete
evaluations below rewrite with these one guard-resolved pass at a time,
which keeps every intermediate term small. -/

theorem scanMPL_stop (legs : List Leg) (endPrice price : ℚ) (accMax accMin : Option ℚ)
    (fuel : ℕ) (h : ¬ price ≤ endPrice) :
    scanMPL legs endPrice price accMax accMin fuel = (accMax, accMin) := by
  cases fuel <;> simp [scanMPL, h]

theorem scanMPL_step (legs : List Leg) (endPrice price : ℚ) (accMax accMin : Option ℚ)
    (fuel : ℕ) (h0 : fuel ≠ 0) (h : price ≤ endPrice) :
    scanMPL legs endPrice price accMax accMin fuel =
      scanMPL legs endPrice (price + 1 / 2)
        (jsMaxAcc accMax (calculatePLAtExpiration legs price))
        (jsMinAcc accMin (calculatePLAtExpiration legs price)) (fuel - 1) := by
  cases fuel with
  | zero => exact absurd rfl h0
  | succ n => simp [scanMPL, h]

theorem bisect_stop (legs : List Leg) (low high lastPL : ℚ) (fuel : ℕ)
    (h : ¬ high - low > 1 / 100) :
    bisect legs low high lastPL fuel = none := by
  have h' : ¬ (100:ℚ)⁻¹ < high - low := by simpa using h
  cases fuel <;> simp [bisect, h']

theorem bisect_push (legs : List Leg) (low high lastPL : ℚ) (fuel : ℕ)
    (h0 : fuel ≠ 0) (h : high - low > 1 / 100)
    (hm : jsAbs (calculatePLAtExpiration legs ((low + high) / 2)) < 1 / 100) :
    bisect legs low high lastPL fuel = some ((low + high) / 2) := by
  have h' : (100:ℚ)⁻¹ < high - low := by simpa using h
  have hm' : jsAbs (calculatePLAtExpiration legs ((low + high) / 2)) < (100:ℚ)⁻¹ := by
    simpa using hm
  cases fuel with
  | zero => exact absurd rfl h0
  | succ n => simp [bisect, h', hm']

theorem bisect_left (legs : List Leg) (low high lastPL : ℚ) (fuel : ℕ)
    (h0 : fuel ≠ 0) (h : high - low > 1 / 100)
    (hm : ¬ jsAbs (calculatePLAtExpiration legs ((low + high) / 2)) < 1 / 100)
    (hc : (lastPL ≤ 0 ∧ calculatePLAtExpiration legs ((low + high) / 2) ≥ 0) ∨
      (lastPL ≥ 0 ∧ calculatePLAtExpiration legs ((low + high) / 2) ≤ 0)) :
    bisect legs low high lastPL fuel =
      bisect legs low ((low + high) / 2) lastPL (fuel - 1) := by
  have h' : (100:ℚ)⁻¹ < high - low := by simpa using h
  have hm' : ¬ jsAbs (calculatePLAtExpiration legs ((low + high) / 2)) < (100:ℚ)⁻¹ := by
    simpa using hm
  have hc' : lastPL ≤ 0 ∧ 0 ≤ calculatePLAtExpiration legs ((low + high) / 2) ∨
      0 ≤ lastPL ∧ calculatePLAtExpiration legs ((low + high) / 2) ≤ 0 := by
    simpa [ge_iff_le] using hc
  cases fuel with
  | zero => exact absurd rfl h0
  | succ n => simp [bisect, h', hm', hc']

theorem bisect_right (legs : List Leg) (low high lastPL : ℚ) (fuel : ℕ)
    (h0 : fuel ≠ 0) (h : high - low > 1 / 100)
    (hm : ¬ jsAbs (calculatePLAtExpiration legs ((low + high) / 2)) < 1 / 100)
    (hc : ¬ ((lastPL ≤ 0 ∧ calculatePLAtExpiration legs ((low + high) / 2) ≥ 0) ∨
      (lastPL ≥ 0 ∧ calculatePLAtExpiration legs ((low + high) / 2) ≤ 0))) :
    bisect legs low high lastPL fuel =
      bisect legs ((low + high) / 2) high
        (calculatePLAtExpiration legs ((low + high) / 2)) (fuel - 1) := by
  have h' : (100:ℚ)⁻¹ < high - low := by simpa using h
  have hm' : ¬ jsAbs (calculatePLAtExpiration legs ((low + high) / 2)) < (100:ℚ)⁻¹ := by
    simpa using hm
  have hc' : ¬ (lastPL ≤ 0 ∧ 0 ≤ calculatePLAtExpiration legs ((low + high) / 2) ∨
      0 ≤ lastPL ∧ calculatePLAtExpiration legs ((low + high) / 2) ≤ 0) := by
    simpa [ge_iff_le] using hc
  cases fuel with
  | zero => exact absurd rfl h0
  | succ n => simp [bisect, h', hm', hc']

theorem scanBE_stop (legs : List Leg) (endPrice price : ℚ) (lastPL? : Option ℚ)
    (acc : List ℚ) (fuel : ℕ) (h : ¬ price ≤ endPrice) :
    scanBE legs endPrice price lastPL? acc fuel = acc := by
  cases fuel <;> simp [scanBE, h]

theorem scanBE_step_none (legs : List Leg) (endPrice price : ℚ) (acc : List ℚ)
    (fuel : ℕ) (h0 : fuel ≠ 0) (h : price ≤ endPrice) :
    scanBE legs endPrice price none acc fuel =
      scanBE legs endPrice (price + 1 / 4)
        (some (calculatePLAtExpiration legs price)) acc (fuel - 1) := by
  cases fuel with
  | zero => exact absurd rfl h0
  | succ n => simp [scanBE, h]

theorem scanBE_step_nocross (legs : List Leg) (endPrice price lastPL : ℚ)
    (acc : List ℚ) (fuel : ℕ) (h0 : fuel ≠ 0) (h : price ≤ endPrice)
    (hc : ¬ ((lastPL ≤ 0 ∧ calculatePLAtExpiration legs price ≥ 0) ∨
      (lastPL ≥ 0 ∧ calculatePLAtExpiration legs price ≤ 0))) :
    scanBE legs endPrice price (some lastPL) acc fuel =
      scanBE legs endPrice (price + 1 / 4)
        (some (calculatePLAtExpiration legs price)) acc (fuel - 1) := by
  have hc' : ¬ (lastPL ≤ 0 ∧ 0 ≤ calculatePLAtExpiration legs price ∨
      0 ≤ lastPL ∧ calculatePLAtExpiration legs price ≤ 0) := by
    simpa [ge_iff_le] using hc
  cases fuel with
  | zero => exact absurd rfl h0
  | succ n => simp [scanBE, h, hc']

theorem scanBE_step_cross (legs : List Leg) (endPrice price lastPL : ℚ)
    (acc : List ℚ) (fuel : ℕ) (h0 : fuel ≠ 0) (h : price ≤ endPrice)
    (hc : (lastPL ≤ 0 ∧ calculatePLAtExpiration legs price ≥ 0) ∨
      (lastPL ≥ 0 ∧ calculatePLAtExpiration legs price ≤ 0)) :
    scanBE legs endPrice price (some lastPL) acc fuel =
      scanBE legs endPrice (price + 1 / 4)
        (some (calculatePLAtExpiration legs price))
        (match bisect legs (price - 1 / 4) price lastPL 64 with
          | some be => acc ++ [be]
          | none => acc) (fuel - 1) := by
  have hc' : lastPL ≤ 0 ∧ 0 ≤ calculatePLAtExpiration legs price ∨
      0 ≤ lastPL ∧ calculatePLAtExpiration legs price ≤ 0 := by
    simpa [ge_iff_le] using hc
  cases fuel with
  | zero => exact absurd rfl h0
  | succ n => simp [scanBE, h, hc']

/-! ## Concrete evaluations of the strategy engine -/

set_option maxRecDepth 100000 in
set_option maxHeartbeats 4000000 in
/-- The breakeven scan on a single long call with strike 100, premium 5,
quantity 1: the scan runs over `[75, 125]` in 0.25 steps, detects the
sign change around the breakeven 105, but both bisection refinements
narrow their brackets to width `0.0078125 ≤ 0.01` without any midpoint
P&L entering `(-0.01, 0.01)`, so nothing is ever pushed. -/
theorem singleCall_breakevens_eval :
    calculateBreakevens [⟨.long, 100, 5, 1, .call, 0⟩] = [] := by
  norm_num [calculateBreakevens, scanBE_step_none, scanBE_step_nocross, scanBE_step_cross,
    scanBE_stop, bisect_stop, bisect_push, bisect_left, bisect_right, jsSetDedup,
    jsRound2, jsMax, jsMin, jsAbs, calculatePLAtExpiration, legPL, legIntrinsic]

set_option maxRecDepth 100000 in
set_option maxHeartbeats 4000000 in
/-- The max-profit/loss scan on a long straddle at strike 100 with
premiums 5 and 5: the 0.5-step scan covers `[0.01, 200]`, and the
boundary sample at `2 * endPrice = 400` dominates, giving the finite
`maxProfit = 29000`; the worst sampled loss is at 100.01. -/
theorem straddle_maxProfitLoss_eval :
    calculateMaxProfitLoss [⟨.long, 100, 5, 1, .call, 0⟩, ⟨.long, 100, 5, 1, .put, 0⟩] =
      { maxProfit := some 29000, maxLoss := some (-999) } := by
  norm_num [calculateMaxProfitLoss, scanMPL_step, scanMPL_stop, jsMaxAcc, jsMinAcc,
    jsMax, jsMin, calculatePLAtExpiration, legPL, legIntrinsic]


/-! ## Analysis of the Abramowitz-Stegun normal CDF approximation -/

theorem sqrt_two_mul_self : Real.sqrt 2 * Real.sqrt 2 = 2 :=
  Real.mul_self_sqrt (by norm_num)

theorem div_sqrt_two_mul_self (x : ℝ) :
    x / Real.sqrt 2 * (x / Real.sqrt 2) = x ^ 2 / 2 := by
  rw [div_mul_div_comm, sqrt_two_mul_self]
  ring

/-- The branch of `normalCDF` for `x < 0`: the Gaussian tail form. -/
theorem normalCDF_of_neg {x : ℝ} (hx : x < 0) :
    normalCDF x = 0.5 * (P5 (tAS (-x / Real.sqrt 2)) * Real.exp (-(x ^ 2) / 2)) := by
  have he : -(-x / Real.sqrt 2) * (-x / Real.sqrt 2) = -(x ^ 2) / 2 := by
    have := div_sqrt_two_mul_self (-x)
    rw [neg_mul, this]
    ring
  simp only [normalCDF, P5, tAS, abs_of_neg hx, if_pos hx]
  rw [he]
  norm_num

/-- The branch of `normalCDF` for `0 ≤ x`. -/
theorem normalCDF_of_nonneg {x : ℝ} (hx : 0 ≤ x) :
    normalCDF x = 1 - 0.5 * (P5 (tAS (x / Real.sqrt 2)) * Real.exp (-(x ^ 2) / 2)) := by
  have he : -(x / Real.sqrt 2) * (x / Real.sqrt 2) = -(x ^ 2) / 2 := by
    have := div_sqrt_two_mul_self x
    rw [neg_mul, this]
    ring
  simp only [normalCDF, P5, tAS, abs_of_nonneg hx, if_neg (not_lt.2 hx)]
  rw [he]
  norm_num
  ring


theorem P5_hasDerivAt (t : ℝ) :
    HasDerivAt P5
      (1.061405429 * (5 * t ^ 4) + (-1.453152027) * (4 * t ^ 3) + 1.421413741 * (3 * t ^ 2)
        + (-0.284496736) * (2 * t) + 0.254829592) t := by
  have hp : P5 = fun s : ℝ => 1.061405429 * s ^ 5 + (-1.453152027) * s ^ 4
      + 1.421413741 * s ^ 3 + (-0.284496736) * s ^ 2 + 0.254829592 * s := by
    funext s; simp only [P5]; ring
  rw [hp]
  have h5 := (hasDerivAt_pow 5 t).const_mul (1.061405429 : ℝ)
  have h4 := (hasDerivAt_pow 4 t).const_mul ((-1.453152027) : ℝ)
  have h3 := (hasDerivAt_pow 3 t).const_mul (1.421413741 : ℝ)
  have h2 := (hasDerivAt_pow 2 t).const_mul ((-0.284496736) : ℝ)
  have h1 : HasDerivAt (fun s : ℝ => 0.254829592 * s) 0.254829592 t := by
    simpa using (hasDerivAt_id t).const_mul (0.254829592 : ℝ)
  have hsum := (((h5.add h4).add h3).add h2).add h1
  convert hsum using 1
  push_cast
  ring

theorem P5_deriv_pos (t : ℝ) : 0 < deriv P5 t := by
  rw [(P5_hasDerivAt t).deriv]
  nlinarith [sq_nonneg (t - t ^ 2), sq_nonneg (2 * 1.357937169 * t - 0.568993472),
    sq_nonneg (t ^ 2), sq_nonneg t]

/-- The Abramowitz-Stegun quintic is strictly increasing (its
derivative is a positive quartic). -/
theorem P5_strictMono : StrictMono P5 :=
  strictMono_of_deriv_pos P5_deriv_pos

theorem P5_zero : P5 0 = 0 := by simp [P5]

theorem P5_one : P5 1 = 0.999999999 := by norm_num [P5]

theorem P5_pos {t : ℝ} (h : 0 < t) : 0 < P5 t := by
  have := P5_strictMono h
  rwa [P5_zero] at this

theorem P5_le_P5_one {t : ℝ} (h : t ≤ 1) : P5 t ≤ P5 1 :=
  P5_strictMono.monotone h

theorem P5_lt_one {t : ℝ} (h : t ≤ 1) : P5 t < 1 := by
  have := P5_le_P5_one h
  rw [P5_one] at this
  linarith

theorem tAS_pos {u : ℝ} (hu : 0 ≤ u) : 0 < tAS u := by
  have h1 : (0:ℝ) < 1 + 0.3275911 * u := by nlinarith
  rw [tAS]
  positivity

theorem tAS_le_one {u : ℝ} (hu : 0 ≤ u) : tAS u ≤ 1 := by
  have h1 : (0:ℝ) < 1 + 0.3275911 * u := by nlinarith
  rw [tAS, div_le_one h1]
  nlinarith

theorem tAS_lt_one {u : ℝ} (hu : 0 < u) : tAS u < 1 := by
  have h1 : (0:ℝ) < 1 + 0.3275911 * u := by nlinarith
  rw [tAS, div_lt_one h1]
  nlinarith

theorem tAS_strictAnti {u v : ℝ} (hu : 0 ≤ u) (huv : u < v) : tAS v < tAS u := by
  have h1 : (0:ℝ) < 1 + 0.3275911 * u := by nlinarith
  have h2 : (0:ℝ) < 1 + 0.3275911 * v := by nlinarith
  rw [tAS, tAS, div_lt_div_iff₀ h2 h1]
  nlinarith

/-- `normalCDF` in terms of the tail-ratio function. -/
theorem normalCDF_eq_gaussTailRatio (x : ℝ) :
    normalCDF x = gaussTailRatio x * Real.exp (-(x ^ 2) / 2) := by
  rw [gaussTailRatio, mul_assoc, ← Real.exp_add,
    show x ^ 2 / 2 + -x ^ 2 / 2 = (0:ℝ) from by ring, Real.exp_zero, mul_one]

theorem gaussTailRatio_of_neg {x : ℝ} (hx : x < 0) :
    gaussTailRatio x = 0.5 * P5 (tAS (-x / Real.sqrt 2)) := by
  rw [gaussTailRatio, normalCDF_of_neg hx, mul_assoc, mul_assoc, ← Real.exp_add,
    show -x ^ 2 / 2 + x ^ 2 / 2 = (0:ℝ) from by ring, Real.exp_zero, mul_one]

theorem gaussTailRatio_of_nonneg {x : ℝ} (hx : 0 ≤ x) :
    gaussTailRatio x = Real.exp (x ^ 2 / 2) - 0.5 * P5 (tAS (x / Real.sqrt 2)) := by
  rw [gaussTailRatio, normalCDF_of_nonneg hx, sub_mul, one_mul, mul_assoc, mul_assoc,
    ← Real.exp_add, show -x ^ 2 / 2 + x ^ 2 / 2 = (0:ℝ) from by ring, Real.exp_zero, mul_one]

theorem sqrt_two_pos : (0:ℝ) < Real.sqrt 2 := Real.sqrt_pos.2 (by norm_num)

/-- Strict monotonicity of `normalCDF x * exp (x^2/2)`: the heart of
the positivity of Black-Scholes prices computed with the
Abramowitz-Stegun approximation. -/
theorem gaussTailRatio_strictMono : StrictMono gaussTailRatio := by
  intro x y hxy
  rcases lt_or_le y 0 with hy | hy
  · have hx : x < 0 := hxy.trans hy
    rw [gaussTailRatio_of_neg hx, gaussTailRatio_of_neg hy]
    have huy : 0 ≤ -y / Real.sqrt 2 := div_nonneg (by linarith) sqrt_two_pos.le
    have huv : -y / Real.sqrt 2 < -x / Real.sqrt 2 := by gcongr
    have hp := P5_strictMono (tAS_strictAnti huy huv)
    linarith
  · rcases lt_or_le x 0 with hx | hx
    · rw [gaussTailRatio_of_neg hx, gaussTailRatio_of_nonneg hy]
      have hux : 0 < -x / Real.sqrt 2 := div_pos (by linarith) sqrt_two_pos
      have h1 : P5 (tAS (-x / Real.sqrt 2)) < 1 := P5_lt_one (tAS_le_one hux.le)
      have h2 : P5 (tAS (y / Real.sqrt 2)) ≤ P5 1 :=
        P5_le_P5_one (tAS_le_one (div_nonneg hy sqrt_two_pos.le))
      have h3 : (1:ℝ) ≤ Real.exp (y ^ 2 / 2) := Real.one_le_exp (by positivity)
      rw [P5_one] at h2
      norm_num at h2 ⊢
      linarith
    · rw [gaussTailRatio_of_nonneg hx, gaussTailRatio_of_nonneg hy]
      have hexp : Real.exp (x ^ 2 / 2) < Real.exp (y ^ 2 / 2) := by
        apply Real.exp_lt_exp.2
        nlinarith
      have huv : x / Real.sqrt 2 < y / Real.sqrt 2 := by gcongr
      have hp := P5_strictMono (tAS_strictAnti (div_nonneg hx sqrt_two_pos.le) huv)
      linarith


/-- Branch of `callPrice` for `T > 0`. -/
theorem callPrice_of_pos {S K T r sigma : ℝ} (hT : 0 < T) :
    callPrice S K T r sigma =
      S * normalCDF (calculateD1 S K T r sigma)
        - K * Real.exp (-r * T)
          * normalCDF (calculateD2 (calculateD1 S K T r sigma) sigma T) := by
  simp only [callPrice, if_neg (not_le.2 hT)]

/-- Branch of `putPrice` for `T > 0`. -/
theorem putPrice_of_pos {S K T r sigma : ℝ} (hT : 0 < T) :
    putPrice S K T r sigma =
      K * Real.exp (-r * T)
          * normalCDF (-calculateD2 (calculateD1 S K T r sigma) sigma T)
        - S * normalCDF (-calculateD1 S K T r sigma) := by
  simp only [putPrice, if_neg (not_le.2 hT)]

/-- The discounting identity
`S * exp(-d1^2/2) = K * exp(-rT) * exp(-d2^2/2)` that links the two
Gaussian-tail prefactors of the Black-Scholes formula. -/
theorem bs_exp_identity {S K T r sigma : ℝ} (hS : 0 < S) (hK : 0 < K)
    (hsig : 0 < sigma) (hT : 0 < T) :
    S * Real.exp (-(calculateD1 S K T r sigma ^ 2) / 2)
      = K * Real.exp (-r * T)
        * Real.exp (-(calculateD2 (calculateD1 S K T r sigma) sigma T ^ 2) / 2) := by
  have hst : 0 < sigma * Real.sqrt T := mul_pos hsig (Real.sqrt_pos.2 hT)
  have hd1 : calculateD1 S K T r sigma * (sigma * Real.sqrt T)
      = Real.log (S / K) + (r + 0.5 * sigma * sigma) * T := by
    rw [calculateD1, div_mul_cancel₀ _ hst.ne']
  have hs2 : (sigma * Real.sqrt T) * (sigma * Real.sqrt T) = sigma * sigma * T := by
    rw [mul_mul_mul_comm, Real.mul_self_sqrt hT.le]
  have hSK : S = K * Real.exp (Real.log (S / K)) := by
    rw [Real.exp_log (div_pos hS hK)]
    field_simp
  set d1 := calculateD1 S K T r sigma with hd1def
  rw [calculateD2]
  conv_lhs => rw [hSK]
  rw [mul_assoc, mul_assoc, ← Real.exp_add, ← Real.exp_add]
  congr 1
  rw [Real.exp_eq_exp]
  linear_combination (-1 : ℝ) * hd1 + 0.5 * hs2

/-- For positive inputs and `T > 0` the source `callPrice` is strictly
positive: the approximation `normalCDF` satisfies
`N(x) = G(x)·exp(-x^2/2)` with `G` strictly increasing, and the two
prefactors agree by `bs_exp_identity`, so the price is
`S·exp(-d1^2/2)·(G(d1) - G(d2)) > 0`. -/
theorem callPrice_pos {S K T r sigma : ℝ} (hS : 0 < S) (hK : 0 < K)
    (hsig : 0 < sigma) (hT : 0 < T) : 0 < callPrice S K T r sigma := by
  have hst : 0 < sigma * Real.sqrt T := mul_pos hsig (Real.sqrt_pos.2 hT)
  rw [callPrice_of_pos hT]
  rw [normalCDF_eq_gaussTailRatio, normalCDF_eq_gaussTailRatio]
  have hd : calculateD2 (calculateD1 S K T r sigma) sigma T < calculateD1 S K T r sigma := by
    rw [calculateD2]
    linarith
  have hG := gaussTailRatio_strictMono hd
  have hid := bs_exp_identity (r := r) hS hK hsig hT
  have hCpos : 0 < S * Real.exp (-(calculateD1 S K T r sigma ^ 2) / 2) := by positivity
  calc 0 < S * Real.exp (-(calculateD1 S K T r sigma ^ 2) / 2)
        * (gaussTailRatio (calculateD1 S K T r sigma)
          - gaussTailRatio (calculateD2 (calculateD1 S K T r sigma) sigma T)) :=
      mul_pos hCpos (sub_pos.2 hG)
    _ = S * (gaussTailRatio (calculateD1 S K T r sigma)
          * Real.exp (-(calculateD1 S K T r sigma ^ 2) / 2))
        - (S * Real.exp (-(calculateD1 S K T r sigma ^ 2) / 2))
          * gaussTailRatio (calculateD2 (calculateD1 S K T r sigma) sigma T) := by ring
    _ = S * (gaussTailRatio (calculateD1 S K T r sigma)
          * Real.exp (-(calculateD1 S K T r sigma ^ 2) / 2))
        - K * Real.exp (-r * T)
          * (gaussTailRatio (calculateD2 (calculateD1 S K T r sigma) sigma T)
            * Real.exp (-(calculateD2 (calculateD1 S K T r sigma) sigma T ^ 2) / 2)) := by
      rw [hid]; ring

/-- For positive inputs and `T > 0` the source `putPrice` is strictly
positive. -/
theorem putPrice_pos {S K T r sigma : ℝ} (hS : 0 < S) (hK : 0 < K)
    (hsig : 0 < sigma) (hT : 0 < T) : 0 < putPrice S K T r sigma := by
  have hst : 0 < sigma * Real.sqrt T := mul_pos hsig (Real.sqrt_pos.2 hT)
  rw [putPrice_of_pos hT]
  rw [normalCDF_eq_gaussTailRatio, normalCDF_eq_gaussTailRatio]
  have hd : -calculateD1 S K T r sigma < -calculateD2 (calculateD1 S K T r sigma) sigma T := by
    rw [calculateD2]
    linarith
  have hG := gaussTailRatio_strictMono hd
  have hid := bs_exp_identity (r := r) hS hK hsig hT
  have hCpos : 0 < S * Real.exp (-(calculateD1 S K T r sigma ^ 2) / 2) := by positivity
  have hsq1 : (-calculateD1 S K T r sigma) ^ 2 = calculateD1 S K T r sigma ^ 2 := by ring
  have hsq2 : (-calculateD2 (calculateD1 S K T r sigma) sigma T) ^ 2
      = calculateD2 (calculateD1 S K T r sigma) sigma T ^ 2 := by ring
  rw [hsq1, hsq2]
  calc 0 < S * Real.exp (-(calculateD1 S K T r sigma ^ 2) / 2)
        * (gaussTailRatio (-calculateD2 (calculateD1 S K T r sigma) sigma T)
          - gaussTailRatio (-calculateD1 S K T r sigma)) :=
      mul_pos hCpos (sub_pos.2 hG)
    _ = (S * Real.exp (-(calculateD1 S K T r sigma ^ 2) / 2))
          * gaussTailRatio (-calculateD2 (calculateD1 S K T r sigma) sigma T)
        - S * (gaussTailRatio (-calculateD1 S K T r sigma)
          * Real.exp (-(calculateD1 S K T r sigma ^ 2) / 2)) := by ring
    _ = K * Real.exp (-r * T)
          * (gaussTailRatio (-calculateD2 (calculateD1 S K T r sigma) sigma T)
            * Real.exp (-(calculateD2 (calculateD1 S K T r sigma) sigma T ^ 2) / 2))
        - S * (gaussTailRatio (-calculateD1 S K T r sigma)
          * Real.exp (-(calculateD1 S K T r sigma ^ 2) / 2)) := by
      rw [hid]; ring


/-- The approximated CDF satisfies `N(x) + N(-x) = 1` exactly for
`x ≠ 0` (same `|x|`, opposite sign branch).  At `x = 0` both branches
take `sign = +1` and the identity fails by `1e-9`. -/
theorem normalCDF_add_normalCDF_neg {x : ℝ} (hx : x ≠ 0) :
    normalCDF x + normalCDF (-x) = 1 := by
  rcases hx.lt_or_lt with h | h
  · have h2 : (0:ℝ) ≤ -x := by linarith
    rw [normalCDF_of_neg h, normalCDF_of_nonneg h2,
      show ((-x) ^ 2 : ℝ) = x ^ 2 from by ring]
    ring
  · have h2 : -x < 0 := by linarith
    rw [normalCDF_of_nonneg h.le, normalCDF_of_neg h2, neg_neg,
      show ((-x) ^ 2 : ℝ) = x ^ 2 from by ring]
    ring

/-- The exact value of the approximated CDF at 0:
`normalCDF 0 = 0.5 + 5e-10`, not 0.5. -/
theorem normalCDF_zero : normalCDF 0 = 1 - 0.5 * 0.999999999 := by
  rw [normalCDF_of_nonneg le_rfl]
  have ht : tAS (0 / Real.sqrt 2) = 1 := by
    rw [show (0:ℝ) / Real.sqrt 2 = 0 from zero_div _, tAS]
    norm_num
  rw [ht, P5_one]
  norm_num


/-- C3 (confirmed): for every `S, K, r, σ` and every `T ≤ 0`, `callPrice`
returns `max (S-K) 0` and `putPrice` returns `max (K-S) 0`: pricing
degenerates to intrinsic value at or past expiry. -/
theorem C3_intrinsic_at_expiry (S K T r sigma : ℝ) (hT : T ≤ 0) :
    callPrice S K T r sigma = max (S - K) 0 ∧
    putPrice S K T r sigma = max (K - S) 0 :=
  ⟨by simp only [callPrice, if_pos hT], by simp only [putPrice, if_pos hT]⟩

/-- Witness for C3 at `S = 100`, `K = 90`, `T = 0`. -/
theorem C3_intrinsic_at_expiry_witness :
    callPrice 100 90 0 0.05 0.25 = max (100 - 90) 0 ∧
    putPrice 100 90 0 0.05 0.25 = max (90 - 100) 0 :=
  C3_intrinsic_at_expiry 100 90 0 0.05 0.25 le_rfl

/-- C5 (confirmed): for positive `S, K, σ` and `T > 0` the source
prices coincide with the specification's closed form floored at 0
(`specCallPrice`, `specPutPrice`) — the flooring is a no-op because the
Abramowitz-Stegun-approximated Black-Scholes value is strictly positive
— and in particular neither function returns a negative price. -/
theorem C5_prices_match_spec_floor (S K T r sigma : ℝ) (hS : 0 < S) (hK : 0 < K)
    (hsig : 0 < sigma) (hT : 0 < T) :
    callPrice S K T r sigma = specCallPrice S K T r sigma ∧
    putPrice S K T r sigma = specPutPrice S K T r sigma ∧
    0 ≤ callPrice S K T r sigma ∧ 0 ≤ putPrice S K T r sigma := by
  have hc := callPrice_pos (r := r) hS hK hsig hT
  have hp := putPrice_pos (r := r) hS hK hsig hT
  refine ⟨?_, ?_, hc.le, hp.le⟩
  · rw [callPrice_of_pos hT] at hc ⊢
    simp only [specCallPrice, if_neg (not_le.2 hT)]
    exact (max_eq_left hc.le).symm
  · rw [putPrice_of_pos hT] at hp ⊢
    simp only [specPutPrice, if_neg (not_le.2 hT)]
    exact (max_eq_left hp.le).symm

/-- Witness for C5 at `S = K = 100`, `T = 1`, `r = 0.05`, `σ = 0.25`. -/
theorem C5_prices_match_spec_floor_witness :
    callPrice 100 100 1 0.05 0.25 = specCallPrice 100 100 1 0.05 0.25 ∧
    putPrice 100 100 1 0.05 0.25 = specPutPrice 100 100 1 0.05 0.25 ∧
    0 ≤ callPrice 100 100 1 0.05 0.25 ∧ 0 ≤ putPrice 100 100 1 0.05 0.25 :=
  C5_prices_match_spec_floor 100 100 1 0.05 0.25 (by norm_num) (by norm_num)
    (by norm_num) (by norm_num)

/-- C4 (amended, confirmed part): put-call parity is exact — deviation
0, far within 1e-6 — whenever `d1 ≠ 0` and `d2 ≠ 0`, for any `S`, `K`,
`r`, `σ` and `T > 0`. -/
theorem C4_parity_exact (S K T r sigma : ℝ) (hT : 0 < T)
    (hd1 : calculateD1 S K T r sigma ≠ 0)
    (hd2 : calculateD2 (calculateD1 S K T r sigma) sigma T ≠ 0) :
    callPrice S K T r sigma - putPrice S K T r sigma
      = S - K * Real.exp (-r * T) := by
  rw [callPrice_of_pos hT, putPrice_of_pos hT]
  have h1 := normalCDF_add_normalCDF_neg hd1
  have h2 := normalCDF_add_normalCDF_neg hd2
  linear_combination S * h1 - K * Real.exp (-r * T) * h2

/-- Witness for the amended C4 at `S = K = 100`, `T = 1`, `r = 0`,
`σ = 1`, where `d1 = 1/2` and `d2 = -1/2`. -/
theorem C4_parity_exact_witness :
    callPrice 100 100 1 0 1 - putPrice 100 100 1 0 1
      = 100 - 100 * Real.exp (-0 * 1) := by
  have h100 : Real.log ((100:ℝ) / 100) = 0 := by
    rw [show (100:ℝ) / 100 = 1 from by norm_num, Real.log_one]
  have hd1 : calculateD1 100 100 1 0 1 = 1 / 2 := by
    rw [calculateD1, h100, Real.sqrt_one]
    norm_num
  apply C4_parity_exact 100 100 1 0 1 one_pos
  · rw [hd1]; norm_num
  · rw [calculateD2, hd1, Real.sqrt_one]; norm_num

/-- C4 (counterexample): at `S = K = 10^7`, `T = 1`, `σ = 1`,
`r = -1/2` the solver has `d1 = 0`, where `normalCDF 0 = 0.5·(1+1e-9)`,
and the parity deviation is exactly `10^7 · 1e-9 = 0.01 > 1e-6`. -/
theorem C4_counterexample :
    ¬ |callPrice 10000000 10000000 1 (-(1/2)) 1
        - putPrice 10000000 10000000 1 (-(1/2)) 1
        - (10000000 - 10000000 * Real.exp (-(-(1/2)) * 1))| ≤ 1e-6 := by
  have h1 : Real.log ((10000000:ℝ) / 10000000) = 0 := by
    rw [show (10000000:ℝ) / 10000000 = 1 from by norm_num, Real.log_one]
  have hd1 : calculateD1 10000000 10000000 1 (-(1/2)) 1 = 0 := by
    rw [calculateD1, h1, Real.sqrt_one]
    norm_num
  have hd2 : calculateD2 (calculateD1 10000000 10000000 1 (-(1/2)) 1) 1 1 = -1 := by
    rw [calculateD2, hd1, Real.sqrt_one]
    norm_num
  have hpar := normalCDF_add_normalCDF_neg (show (1:ℝ) ≠ 0 from one_ne_zero)
  have heq : callPrice 10000000 10000000 1 (-(1/2)) 1
      - putPrice 10000000 10000000 1 (-(1/2)) 1
      - (10000000 - 10000000 * Real.exp (-(-(1/2)) * 1)) = 1 / 100 := by
    rw [callPrice_of_pos one_pos, putPrice_of_pos one_pos, hd2, hd1, neg_zero,
      normalCDF_zero, show ((- -1 : ℝ)) = (1:ℝ) from by norm_num]
    linear_combination (-(10000000 : ℝ) * Real.exp (-(-(1/2) : ℝ) * 1)) * hpar
  rw [heq, abs_of_pos (show (0:ℝ) < 1 / 100 from by norm_num)]
  norm_num


/-! ## The implied-volatility solver -/

/-- Loop invariant for the Newton-Raphson iteration: once `σ` is inside
`[0.01, 5]`, every later iterate stays inside — each update is clamped
by `max 0.01 (min 5.0 ·)` before the next pass. -/
theorem ivLoop_mem_bounds (marketPrice S K T r : ℝ) (optionType : OptionKind)
    (tolerance : ℝ) :
    ∀ (fuel : ℕ) (sigma : ℝ), 0.01 ≤ sigma → sigma ≤ 5 →
      0.01 ≤ ivLoop marketPrice S K T r optionType tolerance sigma fuel ∧
      ivLoop marketPrice S K T r optionType tolerance sigma fuel ≤ 5 := by
  intro fuel
  induction fuel with
  | zero => exact fun sigma h1 h2 => ⟨h1, h2⟩
  | succ n ih =>
    intro sigma h1 h2
    simp only [ivLoop]
    split_ifs with hdiff hv
    · exact ⟨h1, h2⟩
    · exact ⟨h1, h2⟩
    · exact ih _ (le_max_left _ _)
        (max_le (by norm_num) ((min_le_left _ _).trans (by norm_num)))

/-- C7 (confirmed): for every input with at least one allowed iteration,
the value returned by `impliedVolatility` lies in `[0.01, 5.0]`.  (The
hypothesis `1 ≤ maxIterations` is the claim's; the bound in fact holds
for every iteration count, the initial guess 0.3 being inside.) -/
theorem C7_impliedVolatility_bounds (marketPrice S K T r : ℝ)
    (optionType : OptionKind) (tolerance : ℝ) (maxIterations : ℕ)
    (hiter : 1 ≤ maxIterations) :
    0.01 ≤ impliedVolatility marketPrice S K T r optionType tolerance maxIterations ∧
    impliedVolatility marketPrice S K T r optionType tolerance maxIterations ≤ 5 := by
  unfold impliedVolatility
  exact ivLoop_mem_bounds marketPrice S K T r optionType tolerance maxIterations 0.3
    (by norm_num) (by norm_num)

/-- Witness for C7 at a concrete input. -/
theorem C7_impliedVolatility_bounds_witness :
    0.01 ≤ impliedVolatility 5 100 100 0 0.05 .call 0.0001 100 ∧
    impliedVolatility 5 100 100 0 0.05 .call 0.0001 100 ≤ 5 :=
  C7_impliedVolatility_bounds 5 100 100 0 0.05 .call 0.0001 100 (by norm_num)

/-- At `T ≤ 0` the loop never updates `σ`: either the tolerance test
returns it, or `vega = 0` (the `T ≤ 0` branch of `vega`) forces the
zero-vega break.  Any starting iterate is returned unchanged. -/
theorem ivLoop_of_T_nonpos (marketPrice S K r : ℝ) {T : ℝ} (hT : T ≤ 0)
    (optionType : OptionKind) (tolerance : ℝ) (fuel : ℕ) (sigma : ℝ) :
    ivLoop marketPrice S K T r optionType tolerance sigma fuel = sigma := by
  cases fuel with
  | zero => rfl
  | succ n =>
    simp only [ivLoop, vega, if_pos hT, zero_mul]
    split_ifs <;> rfl

/-- C10 (confirmed): whenever `T ≤ 0`, `impliedVolatility` returns
exactly the initial guess 0.3, for every market price, spot, strike,
rate, option type, tolerance and iteration budget. -/
theorem C10_impliedVolatility_at_expiry (marketPrice S K T r : ℝ)
    (optionType : OptionKind) (tolerance : ℝ) (maxIterations : ℕ) (hT : T ≤ 0) :
    impliedVolatility marketPrice S K T r optionType tolerance maxIterations = 0.3 := by
  unfold impliedVolatility
  exact ivLoop_of_T_nonpos marketPrice S K r hT optionType tolerance maxIterations 0.3

/-- Witness for C10: `T = 0` with a market price far from intrinsic. -/
theorem C10_impliedVolatility_at_expiry_witness :
    impliedVolatility 7 100 90 0 0.05 .put 0.0001 100 = 0.3 :=
  C10_impliedVolatility_at_expiry 7 100 90 0 0.05 .put 0.0001 100 le_rfl

/-- The instrumented loop computes exactly the source loop's value in
its first component. -/
theorem ivResultLoop_fst (marketPrice S K T r : ℝ) (optionType : OptionKind)
    (tolerance : ℝ) :
    ∀ (fuel : ℕ) (sigma : ℝ),
      (ivResultLoop marketPrice S K T r optionType tolerance sigma fuel).1
        = ivLoop marketPrice S K T r optionType tolerance sigma fuel := by
  intro fuel
  induction fuel with
  | zero => exact fun _ => rfl
  | succ n ih =>
    intro sigma
    simp only [ivResultLoop, ivLoop]
    split_ifs with h1 h2
    · rfl
    · rfl
    · exact ih _

/-- C6 (amended): `impliedVolatility` returns only the bare final `σ` —
the first component of the instrumented run — so the convergence flag is
not part of its output for any input. -/
theorem C6_impliedVolatility_untagged (marketPrice S K T r : ℝ)
    (optionType : OptionKind) (tolerance : ℝ) (maxIterations : ℕ) :
    impliedVolatility marketPrice S K T r optionType tolerance maxIterations
      = (ivResult marketPrice S K T r optionType tolerance maxIterations).1 := by
  unfold impliedVolatility ivResult
  exact (ivResultLoop_fst marketPrice S K T r optionType tolerance maxIterations 0.3).symm

/-- C6 (counterexample): a converged run (market price 0 equals the
intrinsic value at `T = 0`, tolerance met on the first pass) and a
non-converged run (market price 5, zero-vega break) return the *same*
bare number 0.3 — a caller cannot tell them apart. -/
theorem C6_counterexample :
    (ivResult 0 100 100 0 0.05 .call 0.0001 100).2 = true ∧
    (ivResult 5 100 100 0 0.05 .call 0.0001 100).2 = false ∧
    (ivResult 0 100 100 0 0.05 .call 0.0001 100).1
      = (ivResult 5 100 100 0 0.05 .call 0.0001 100).1 := by
  have e1 : ivResult 0 100 100 0 0.05 .call 0.0001 100 = (0.3, true) := by
    unfold ivResult
    rw [show (100:ℕ) = 99 + 1 from rfl, ivResultLoop]
    norm_num [callPrice]
  have e2 : ivResult 5 100 100 0 0.05 .call 0.0001 100 = (0.3, false) := by
    unfold ivResult
    rw [show (100:ℕ) = 99 + 1 from rfl, ivResultLoop]
    norm_num [callPrice, vega]
  exact ⟨by rw [e1], by rw [e2], by rw [e1, e2]⟩


/-! ## The P&L curve generator -/

/-- The two series are pushed in the same loop pass, so they list the
same prices in the same order. -/
theorem curveLoop_aligned (legs : List Leg) (now : ℝ) (endPrice step : ℚ) :
    ∀ (fuel : ℕ) (price : ℚ),
      (curveLoop legs now endPrice step price fuel).1.map Prod.fst
        = (curveLoop legs now endPrice step price fuel).2.map Prod.fst := by
  intro fuel
  induction fuel with
  | zero => exact fun _ => rfl
  | succ n ih =>
    intro price
    simp only [curveLoop]
    split_ifs with h
    · simp only [List.map_cons, ih]
    · rfl

/-- Exact element count of the `generatePLCurve` sampling loop: starting
`k` steps below `endPrice` (with positive step and enough fuel), the
loop emits exactly `k + 1` pairs — both fenceposts included, because the
JS guard is `price <= endPrice`. -/
theorem curveLoop_length (legs : List Leg) (now : ℝ) (endPrice step : ℚ)
    (hstep : 0 < step) :
    ∀ (k fuel : ℕ) (price : ℚ), price = endPrice - (k : ℚ) * step → k + 2 ≤ fuel →
      (curveLoop legs now endPrice step price fuel).1.length = k + 1 ∧
      (curveLoop legs now endPrice step price fuel).2.length = k + 1 := by
  intro k
  induction k with
  | zero =>
    intro fuel price hp hfuel
    obtain ⟨m, rfl⟩ : ∃ m, fuel = m + 1 + 1 := ⟨fuel - 2, by omega⟩
    norm_num at hp
    rw [hp]
    have hstop : ¬ endPrice + step ≤ endPrice := by linarith
    simp only [curveLoop]
    rw [if_pos le_rfl, if_neg hstop]
    simp
  | succ k ih =>
    intro fuel price hp hfuel
    obtain ⟨m, rfl⟩ : ∃ m, fuel = m + 1 := ⟨fuel - 1, by omega⟩
    have hguard : price ≤ endPrice := by
      rw [hp]
      have : (0:ℚ) ≤ ((k:ℚ) + 1) * step := by positivity
      push_cast
      linarith
    have hp' : price + step = endPrice - (k : ℚ) * step := by
      rw [hp]
      push_cast
      ring
    obtain ⟨l1, l2⟩ := ih m (price + step) hp' (by omega)
    simp only [curveLoop]
    rw [if_pos hguard]
    constructor <;> simp [l1, l2]

/-- C9 (code bug): at stock price 100 with the default half-spot range,
`generatePLCurve` samples `[50, 150]` with step `(150-50)/100 = 1` and
produces exactly 101 index-aligned points in each series — one more
than the "100 data points" the source comment and the specification
promise, because `startPrice + 100·step = endPrice` still satisfies the
loop guard `price <= endPrice`. -/
theorem C9_generatePLCurve_fencepost (legs : List Leg) (now : ℝ) :
    (generatePLCurve legs none 100 now).1.length = 101 ∧
    (generatePLCurve legs none 100 now).2.length = 101 ∧
    (generatePLCurve legs none 100 now).1.map Prod.fst
      = (generatePLCurve legs none 100 now).2.map Prod.fst := by
  have h50 : jsMax (1 / 100) (100 - 100 * (1 / 2)) = (50:ℚ) := by
    rw [jsMax]
    norm_num
  have hstep : ((100:ℚ) + 100 * (1 / 2) - 50) / 100 = 1 := by norm_num
  have hcount := curveLoop_length legs now (100 + 100 * (1 / 2))
    ((100 + 100 * (1 / 2) - 50) / 100) (by norm_num) 100 1000 50 (by norm_num) (by norm_num)
  have halign := curveLoop_aligned legs now (100 + 100 * (1 / 2))
    ((100 + 100 * (1 / 2) - 50) / 100) 1000 50
  simp only [generatePLCurve]
  rw [h50]
  exact ⟨hcount.1, hcount.2, halign⟩


/-! ## Claims on the strategy engine -/

/-- C1 (code bug): for the single long call with strike 100, premium 5,
quantity 1, the breakeven `K + p = 105` satisfies the claim arithmetic —
the expiration P&L at 105 is exactly 0 — yet `calculateBreakevens`
returns the empty list, not one value near 105: its bisection records a
breakeven only through the `|P&L| < 0.01` early exit and records
nothing when the bracket narrows to width `0.0078125 ≤ 0.01` first,
which is what happens here on both detected brackets. -/
theorem C1_singleCall_breakeven_missed :
    calculateBreakevens [⟨.long, 100, 5, 1, .call, 0⟩] = [] ∧
    calculatePLAtExpiration [⟨.long, 100, 5, 1, .call, 0⟩] 105 = 0 :=
  ⟨singleCall_breakevens_eval,
    by norm_num [calculatePLAtExpiration, legPL, legIntrinsic, jsMax]⟩

/-- Shared evaluation: `calculateMaxProfitLoss` on zero legs returns
`{maxProfit := 0, maxLoss := 0}` — the empty scan leaves the `±Infinity`
accumulators untouched, but the two extreme samples (the P&L of an
empty strategy, 0) then replace them, so the `null` translation never
fires. -/
theorem emptyLegs_MPL_eval :
    calculateMaxProfitLoss ([] : List Leg)
      = { maxProfit := some 0, maxLoss := some 0 } := by
  simp [calculateMaxProfitLoss, calculatePLAtExpiration, jsMaxAcc, jsMinAcc, jsMax, jsMin]

/-- C2 (counterexample): with zero legs `calculateMaxProfitLoss` does
NOT return the null sentinel for `maxProfit` and `maxLoss` — it returns
the number 0 for both. -/
theorem C2_counterexample :
    ¬ ((calculateMaxProfitLoss ([] : List Leg)).maxProfit = none ∧
      (calculateMaxProfitLoss ([] : List Leg)).maxLoss = none) := by
  rw [emptyLegs_MPL_eval]
  simp

/-- C2 (amended): with zero legs `calculateBreakevens` returns the
empty list, and `calculateMaxProfitLoss` returns the genuine number 0
(not the null sentinel) for both `maxProfit` and `maxLoss`; both
functions are total. -/
theorem C2_empty_strategy :
    calculateBreakevens ([] : List Leg) = [] ∧
    calculateMaxProfitLoss ([] : List Leg)
      = { maxProfit := some 0, maxLoss := some 0 } :=
  ⟨rfl, emptyLegs_MPL_eval⟩

/-- C8 (counterexample): for the long straddle at strike 100 with
premiums 5 and 5, the reported `maxProfit` is the finite number 29000 —
a genuine numeric sample maximum, not an "unbounded" sentinel (the
result type carries no such sentinel; its only non-numeric value is the
JS `null`, i.e. `none`, and that is not returned either). -/
theorem C8_counterexample :
    (calculateMaxProfitLoss
        [⟨.long, 100, 5, 1, .call, 0⟩, ⟨.long, 100, 5, 1, .put, 0⟩]).maxProfit
      = some 29000 ∧
    (calculateMaxProfitLoss
        [⟨.long, 100, 5, 1, .call, 0⟩, ⟨.long, 100, 5, 1, .put, 0⟩]).maxProfit
      ≠ none := by
  rw [straddle_maxProfitLoss_eval]
  exact ⟨rfl, by simp⟩

/-- C8 (amended): the straddle maxProfit is the finite truncated-scan
maximum `(K + 200 - p1 - p2) * 100 = 29000`, attained at the boundary
sample `2 * endPrice = 400`; maxLoss is the sampled `-999` (at price
100.01), not the true `-1000` at the strike. -/
theorem C8_straddle_finite :
    calculateMaxProfitLoss
        [⟨.long, 100, 5, 1, .call, 0⟩, ⟨.long, 100, 5, 1, .put, 0⟩]
      = { maxProfit := some 29000, maxLoss := some (-999) } :=
  straddle_maxProfitLoss_eval

end OptionsCalc
